import Mathlib

/-!
Verification of the `tracker` dynamic disassembler's core data structures
against its specification.

The development shallowly embeds the two C modules that implement the core:

* `Traces` models `src/traces.c` (instruction records, the collision-chained
  hash store keyed by the fasthash64 hash, and the execution trace);
* `Trace` models `src/trace.c` (the CFG node store, the call stack, and the
  CFG insertion driver `cfg_insert` / `aux_cfg_insert`).

Machine integers are modelled as `Nat` with explicit reduction `% 2 ^ 64`
where 64-bit wrap-around matters (the hash).  Pointers are modelled as
explicit identifiers (`Nat`) into a heap, NULL as `Option.none`, and a C
execution that dereferences NULL or under-runs the call stack is modelled
by an `Option.none` result (or a dedicated `crash` constructor) of the
embedded operation.
-/

/-! ### 64-bit helpers -/

/-- `2 ^ 64`, the modulus of the 64-bit wrap-around arithmetic used by the
hash. -/
def M64 : Nat := 2 ^ 64

/-- The fasthash64 multiplier `m` (verbatim constant from the source). -/
def FH_M : Nat := 0x880355f21e6d1965

/-- The fasthash64 mixing multiplier (verbatim constant from the source). -/
def FH_K : Nat := 0x2127598bf4325c37

/-- The compression macro `mix` of `traces.c`/`trace.c`:
`h ^= h >> 23; h *= 0x2127598bf4325c37; h ^= h >> 47`.
The multiplication is 64-bit, hence the `% 2 ^ 64`. -/
def fh_mix (h : Nat) : Nat :=
  let h1 := h ^^^ (h >>> 23)
  let h2 := h1 * FH_K % M64
  h2 ^^^ (h2 >>> 47)

/-- Value of a little-endian byte sequence, written exactly as the C code
accumulates the trailing bytes: the i-th byte is shifted left by `8 * i`
bits and XOR-ed into the accumulator (`v ^= pos2[i] << (8 * i)`). -/
def wordLE : List Nat → Nat
  | [] => 0
  | b :: bs => b ^^^ (wordLE bs <<< 8)

/-- Block/tail folding step of fasthash64: `h = (h ^ mix(v)) * m` in 64-bit
arithmetic. -/
def fh_fold (h v : Nat) : Nat := (h ^^^ fh_mix v) * FH_M % M64

/-- The main loop of the source `fasthash64`: consume the buffer eight bytes
at a time (the C code walks a `uint64_t` pointer for `len / 8` iterations;
a little-endian load of eight bytes is their `wordLE` value), then fold the
remaining `len & 7` bytes once through the `switch` accumulator, or nothing
when `len & 7 == 0`. -/
def fh_body : Nat → List Nat → Nat
  | h, b0 :: b1 :: b2 :: b3 :: b4 :: b5 :: b6 :: b7 :: rest =>
      fh_body (fh_fold h (wordLE [b0, b1, b2, b3, b4, b5, b6, b7])) rest
  | h, [] => h
  | h, bs => fh_fold h (wordLE bs)

/-- `fasthash64 (buf, len, seed)` of `traces.c` (identical in `trace.c`),
with `len = buf.length`: `h = seed ^ (len * m)`, the block/tail folds of
`fh_body`, and a final `mix`. -/
def fasthash64 (buf : List Nat) (seed : Nat) : Nat :=
  fh_mix (fh_body (seed ^^^ (buf.length * FH_M % M64)) buf)

/-! ### The specification's formulation of fasthash64 (spec §4.B)

Written from the specification's words: blocks are 8-byte little-endian
values (a base-256 little-endian number), consumed with
`h = (h ^ mix(v)) * m`; the trailing `1..7` bytes form one last block;
the result is `mix(h)`. -/

/-- Base-256 little-endian value of a byte sequence (the specification's
"8-byte little-endian block"). -/
def le64_spec : List Nat → Nat
  | [] => 0
  | b :: bs => b + 256 * le64_spec bs

/-- The specification's folding loop: consume 8-byte little-endian blocks,
then fold the trailing `1..7` bytes once (nothing when none remain). -/
def fh_spec_body (h : Nat) (bs : List Nat) : Nat :=
  if 8 ≤ bs.length then
    fh_spec_body (fh_fold h (le64_spec (bs.take 8))) (bs.drop 8)
  else if bs.length = 0 then h
  else fh_fold h (le64_spec bs)
termination_by bs.length
decreasing_by simp [List.length_drop]; omega

/-- fasthash64 as specified in §4.B: initial `h = seed ^ (len * m)`, block
folds, trailing fold, final `mix`. -/
def fasthash64_spec (buf : List Nat) (seed : Nat) : Nat :=
  fh_mix (fh_spec_body (seed ^^^ (buf.length * FH_M % M64)) buf)

/-! ### XOR-accumulation agrees with base-256 little-endian value -/

/-- XOR with a disjoint high part is addition: for `b < 2 ^ n`,
`b ^^^ (x <<< n) = b + (x <<< n)`. -/
theorem xor_shiftLeft_eq_add {b : Nat} (x n : Nat) (hb : b < 2 ^ n) :
    b ^^^ (x <<< n) = b + (x <<< n) := by
  apply Nat.eq_of_testBit_eq
  intro i
  have hx : x <<< n = 2 ^ n * x := by
    rw [Nat.shiftLeft_eq, Nat.mul_comm]
  rw [hx, Nat.testBit_xor, Nat.add_comm, Nat.testBit_mul_pow_two_add x hb i,
    Nat.testBit_mul_pow_two]
  by_cases h : i < n
  · have : ¬ i ≥ n := by omega
    simp [h, this]
  · have hge : i ≥ n := by omega
    have hbf : b.testBit i = false := by
      apply Nat.testBit_lt_two_pow
      calc b < 2 ^ n := hb
        _ ≤ 2 ^ i := Nat.pow_le_pow_right (by omega) hge
    simp [h, hge, hbf]

/-- On genuine bytes (each `< 256`) the XOR accumulator of the C code
computes the base-256 little-endian value the specification describes. -/
theorem wordLE_eq_le64_spec : ∀ bs : List Nat, (∀ b ∈ bs, b < 256) →
    wordLE bs = le64_spec bs := by
  intro bs
  induction bs with
  | nil => intro _; rfl
  | cons b bs ih =>
    intro h
    have hb : b < 256 := h b (by simp)
    have hrest : ∀ x ∈ bs, x < 256 := fun x hx => h x (by simp [hx])
    show b ^^^ (wordLE bs <<< 8) = b + 256 * le64_spec bs
    rw [xor_shiftLeft_eq_add (wordLE bs) 8 hb, ih hrest, Nat.shiftLeft_eq]
    ring

/-- On fewer than eight remaining bytes the source loop performs exactly one
tail fold. -/
theorem fh_body_short (h b0 : Nat) (rest : List Nat) (hlen : rest.length < 7) :
    fh_body h (b0 :: rest) = fh_fold h (wordLE (b0 :: rest)) := by
  rcases rest with _ | ⟨c1, rest⟩
  · rfl
  rcases rest with _ | ⟨c2, rest⟩
  · rfl
  rcases rest with _ | ⟨c3, rest⟩
  · rfl
  rcases rest with _ | ⟨c4, rest⟩
  · rfl
  rcases rest with _ | ⟨c5, rest⟩
  · rfl
  rcases rest with _ | ⟨c6, rest⟩
  · rfl
  rcases rest with _ | ⟨c7, rest⟩
  · rfl
  exfalso
  simp at hlen
  omega

/-- The source's pointer-walking loop and the specification's block/tail
description compute the same fold, byte for byte. -/
theorem fh_body_eq_spec : ∀ (h : Nat) (bs : List Nat), (∀ b ∈ bs, b < 256) →
    fh_body h bs = fh_spec_body h bs := by
  intro h bs
  induction h, bs using fh_spec_body.induct with
  | case1 h bs h8 ih =>
    match bs, h8, ih with
    | b0 :: b1 :: b2 :: b3 :: b4 :: b5 :: b6 :: b7 :: rest, _, ih =>
      intro hlt
      rw [fh_body, fh_spec_body]
      simp only [List.length_cons, show 8 ≤ rest.length + 8 by omega, if_pos]
      have htake : (b0 :: b1 :: b2 :: b3 :: b4 :: b5 :: b6 :: b7 :: rest).take 8
          = [b0, b1, b2, b3, b4, b5, b6, b7] := rfl
      have hdrop : (b0 :: b1 :: b2 :: b3 :: b4 :: b5 :: b6 :: b7 :: rest).drop 8
          = rest := rfl
      rw [htake, hdrop] at ih ⊢
      rw [wordLE_eq_le64_spec [b0, b1, b2, b3, b4, b5, b6, b7]
        (fun b hb => hlt b (by simp at hb ⊢; tauto))]
      exact ih (fun b hb => hlt b (by simp [hb]))
  | case2 h bs h8 h0 =>
    intro _
    have : bs = [] := List.length_eq_zero.mp h0
    subst this
    rw [fh_body, fh_spec_body]
    simp
  | case3 h bs h8 h0 =>
    intro hlt
    match bs, h8, h0 with
    | b0 :: rest, h8, _ =>
      have hlen : rest.length < 7 := by simp at h8; omega
      have hw : wordLE (b0 :: rest) = le64_spec (b0 :: rest) :=
        wordLE_eq_le64_spec _ hlt
      rw [fh_spec_body]
      simp only [List.length_cons, if_neg (by simp; omega : ¬ 8 ≤ rest.length + 1),
        if_neg (by omega : ¬ rest.length + 1 = 0)]
      rw [fh_body_short h b0 rest hlen, hw]

/-- The source `fasthash64` computes exactly the function described in the
specification, for any buffer of bytes and any seed. -/
theorem fasthash64_eq_spec (buf : List Nat) (seed : Nat)
    (h : ∀ b ∈ buf, b < 256) : fasthash64 buf seed = fasthash64_spec buf seed := by
  unfold fasthash64 fasthash64_spec
  rw [fh_body_eq_spec _ buf h]

/-! ## `Traces` — model of `src/traces.c` -/

namespace Traces

/-- The instruction record of `traces.c` (`struct _instr_t`): an address and
the opcode byte sequence.  The `size` field of the C struct always equals the
length of the `opcodes` flexible array (`instr_new` copies exactly `size`
bytes), so it is modelled as the derived length. -/
structure Instr where
  address : Nat
  opcodes : List Nat
deriving DecidableEq

/-- The `size` field of the record (the length of the opcode bytes). -/
def Instr.instrSize (i : Instr) : Nat := i.opcodes.length

/-- `instr_new` of `traces.c`: fails with `EINVAL` (modelled `none`) when
`size == 0` or the opcode buffer is absent; otherwise copies `size` bytes
out of the buffer. -/
def instr_new (addr : Nat) (size : Nat) (opcodes : Option (List Nat)) :
    Option Instr :=
  match opcodes with
  | none => none
  | some buf => if size = 0 then none else some ⟨addr, buf.take size⟩

/-- `hash_instr` of `traces.c`:
`fasthash64 (instr->opcodes, instr->size, instr->address)`. -/
def hash_instr (i : Instr) : Nat := fasthash64 i.opcodes i.address

/-- `strncmp (a, b, n) == 0`, the comparison the C code applies to opcode
byte sequences: bytes are compared pairwise, but the scan stops — reporting
equality — as soon as a 0x00 byte is reached (the C-string terminator). -/
def strncmp_eq : List Nat → List Nat → Nat → Bool
  | _, _, 0 => true
  | a :: as, b :: bs, n + 1 =>
      if a ≠ b then false else if a = 0 then true else strncmp_eq as bs n
  | _, _, _ + 1 => true

/-- The duplicate test of `hashtable_insert`/`hashtable_lookup`:
`e->address == i->address && e->size == i->size &&
!strncmp (e->opcodes, i->opcodes, i->size)`. -/
def identMatch (e i : Instr) : Bool :=
  e.address == i.address && e.instrSize == i.instrSize &&
    strncmp_eq e.opcodes i.opcodes i.instrSize

/-- The hash table of `traces.c` (`struct _hashtable_t`): a fixed number of
buckets, each a chain of instruction records, plus the `collisions` and
`entries` counters.  A NULL bucket is the empty chain (chains only ever
grow, so a bucket is NULL exactly when it holds no entry). -/
structure Hashtable where
  size : Nat
  collisions : Nat
  entries : Nat
  buckets : Nat → List Instr

/-- `hashtable_new`: fails with `EINVAL` when `size == 0`, otherwise all
buckets empty and both counters zero. -/
def hashtable_new (size : Nat) : Option Hashtable :=
  if size = 0 then none else some ⟨size, 0, 0, fun _ => []⟩

/-- The bucket selected for an instruction: `hash_instr (instr) % ht->size`. -/
def bucketIdx (ht : Hashtable) (i : Instr) : Nat := hash_instr i % ht.size

/-- `hashtable_insert` of `traces.c`.  Empty bucket: place the handle and
count an entry.  Non-empty bucket: scan the chain with `identMatch`; on a
match return `false` and change nothing; otherwise append the handle at the
end of the chain and count an entry and a collision. -/
def hashtable_insert (ht : Hashtable) (instr : Instr) : Hashtable × Bool :=
  let index := bucketIdx ht instr
  let bucket := ht.buckets index
  if bucket = [] then
    ({ ht with
        buckets := fun j => if j = index then [instr] else ht.buckets j,
        entries := ht.entries + 1 }, true)
  else if bucket.any (fun e => identMatch e instr) then
    (ht, false)
  else
    ({ ht with
        buckets := fun j => if j = index then bucket ++ [instr] else ht.buckets j,
        entries := ht.entries + 1,
        collisions := ht.collisions + 1 }, true)

/-- `hashtable_entries`. -/
def hashtable_entries (ht : Hashtable) : Nat := ht.entries

/-- `hashtable_collisions`. -/
def hashtable_collisions (ht : Hashtable) : Nat := ht.collisions

/-- `hashtable_filled_buckets`: count the non-NULL buckets. -/
def hashtable_filled_buckets (ht : Hashtable) : Nat :=
  (List.range ht.size).countP (fun j => !(ht.buckets j).isEmpty)

/-- Run a sequence of `hashtable_insert` calls, left to right. -/
def insertAll (ht : Hashtable) (ops : List Instr) : Hashtable :=
  ops.foldl (fun h i => (hashtable_insert h i).1) ht

/-- Number of calls in the sequence that returned `true`. -/
def countTrue : Hashtable → List Instr → Nat
  | _, [] => 0
  | ht, i :: rest =>
      (if (hashtable_insert ht i).2 then 1 else 0) +
        countTrue (hashtable_insert ht i).1 rest

/-- Number of calls in the sequence whose selected bucket went from empty to
non-empty. -/
def countFresh : Hashtable → List Instr → Nat
  | _, [] => 0
  | ht, i :: rest =>
      (if ht.buckets (bucketIdx ht i) = [] ∧
          (hashtable_insert ht i).1.buckets (bucketIdx ht i) ≠ [] then 1 else 0) +
        countFresh (hashtable_insert ht i).1 rest

/-- Number of calls in the sequence that appended to an already non-empty
bucket (a successful insertion into a non-empty bucket). -/
def countColl : Hashtable → List Instr → Nat
  | _, [] => 0
  | ht, i :: rest =>
      (if ht.buckets (bucketIdx ht i) ≠ [] ∧ (hashtable_insert ht i).2 = true
        then 1 else 0) +
        countColl (hashtable_insert ht i).1 rest

/-! ### The execution trace of `traces.c`

`struct _trace_t` is a NULL-terminated singly-linked list of instruction
handles with a tail pointer; a handle is a pointer, modelled as a `Nat`
identifier compared by identity.  The list of handles from head to tail is
the whole state. -/

/-- Result of `trace_get`: an `EINVAL` failure, a NULL-pointer dereference
(undefined behaviour of the C code), or a returned handle (`none` = NULL). -/
inductive GetResult where
  | einval : GetResult
  | crash : GetResult
  | ok : Option Nat → GetResult
deriving DecidableEq

/-- The walking loop of `trace_get`, with `steps = index - 1` iterations
remaining and `cur` the suffix of the trace at the current node (`[]` is
NULL).  One iteration runs `current = current->next` — dereferencing NULL
crashes — and returns NULL as soon as `current` becomes NULL; after the last
iteration the loop returns `current->instr`, again crashing on NULL. -/
def trace_get_walk : List Nat → Nat → GetResult
  | [], 0 => .crash
  | x :: _, 0 => .ok (some x)
  | [], _ + 1 => .crash
  | _ :: rest, steps + 1 =>
      if rest = [] then .ok none else trace_get_walk rest steps

/-- `trace_get` of `traces.c`: `EINVAL` when `index < 1`, otherwise walk
`index - 1` nodes from the head. -/
def trace_get (tr : List Nat) (index : Nat) : GetResult :=
  if index < 1 then .einval else trace_get_walk tr (index - 1)

/-- `trace_append` of `traces.c`: link a fresh node holding the handle after
the tail (or make it the head of an empty trace). -/
def trace_append (tr : List Nat) (i : Nat) : List Nat := tr ++ [i]

/-- `trace_length` of `traces.c`: count the nodes from the head. -/
def trace_length (tr : List Nat) : Nat := tr.length

/-- The comparison loop of `trace_compare`: both cursors start on the heads
with `count = 1`; while the instruction handles agree both cursors advance
and `count` increments, returning 0 when both run out together and the
current `count` when only one runs out or the handles differ. -/
def trace_compare_walk : List Nat → List Nat → Nat → Nat
  | a :: as, b :: bs, count =>
      if a = b then
        match as, bs with
        | [], [] => 0
        | [], _ :: _ => count + 1
        | _ :: _, [] => count + 1
        | a' :: as', b' :: bs' => trace_compare_walk (a' :: as') (b' :: bs') (count + 1)
      else count
  | _, _, count => count

/-- `trace_compare` of `traces.c`: return 1 outright when either trace has
an empty head, otherwise run the comparison loop from `count = 1`. -/
def trace_compare (t1 t2 : List Nat) : Nat :=
  if t1 = [] ∨ t2 = [] then 1 else trace_compare_walk t1 t2 1

end Traces

namespace Traces

/-! ### Counter bookkeeping of the hash store -/

/-- Changing the truth of a predicate at a single point `j < S` shifts the
`countP` over `List.range S` by exactly the difference at `j`. -/
theorem countP_range_update (S j : Nat) (p q : Nat → Bool) (hj : j < S)
    (hsame : ∀ x, x ≠ j → p x = q x) :
    (List.range S).countP q + (if p j then 1 else 0) =
      (List.range S).countP p + (if q j then 1 else 0) := by
  induction S with
  | zero => omega
  | succ S ih =>
    rw [List.range_succ, List.countP_append, List.countP_append]
    by_cases hjS : j = S
    · subst hjS
      have hpq : (List.range j).countP p = (List.range j).countP q := by
        apply List.countP_congr
        intro x hx
        have : x ≠ j := by
          have := List.mem_range.mp hx
          omega
        rw [hsame x this]
      simp only [List.countP_cons, List.countP_nil]
      omega
    · have hj' : j < S := by omega
      have := ih hj'
      have hS : p S = q S := hsame S (by omega)
      simp only [List.countP_cons, List.countP_nil, hS]
      omega

/-- Effect of a single `hashtable_insert` on the observable state: the size
is preserved, `entries` grows exactly when the call returns `true`,
`collisions` grows exactly when a successful call found its bucket already
non-empty, and the filled-bucket count grows exactly when the bucket went
from empty to non-empty. -/
theorem hashtable_insert_step (ht : Hashtable) (i : Instr) (hS : 0 < ht.size) :
    (hashtable_insert ht i).1.size = ht.size ∧
    (hashtable_insert ht i).1.entries =
      ht.entries + (if (hashtable_insert ht i).2 then 1 else 0) ∧
    (hashtable_insert ht i).1.collisions =
      ht.collisions + (if ht.buckets (bucketIdx ht i) ≠ [] ∧
        (hashtable_insert ht i).2 = true then 1 else 0) ∧
    hashtable_filled_buckets (hashtable_insert ht i).1 =
      hashtable_filled_buckets ht + (if ht.buckets (bucketIdx ht i) = [] ∧
        (hashtable_insert ht i).1.buckets (bucketIdx ht i) ≠ [] then 1 else 0) := by
  have hidx : bucketIdx ht i < ht.size := Nat.mod_lt _ hS
  by_cases hempty : ht.buckets (bucketIdx ht i) = []
  · have e1 : hashtable_insert ht i =
        ({ ht with
            buckets := fun j => if j = bucketIdx ht i then [i] else ht.buckets j,
            entries := ht.entries + 1 }, true) := by
      unfold hashtable_insert
      simp [hempty]
    have hcount := countP_range_update ht.size (bucketIdx ht i)
      (fun j => !(ht.buckets j).isEmpty)
      (fun j => !((if j = bucketIdx ht i then [i] else ht.buckets j)).isEmpty)
      hidx (by intro x hx; simp [hx])
    simp [hempty] at hcount
    refine ⟨by rw [e1], by simp [e1], by simp [e1, hempty], ?_⟩
    simp only [e1]
    unfold hashtable_filled_buckets
    simp [hempty]
    omega
  · by_cases hdup : (ht.buckets (bucketIdx ht i)).any (fun e => identMatch e i)
    · have e2 : hashtable_insert ht i = (ht, false) := by
        unfold hashtable_insert
        simp [hempty, hdup]
      refine ⟨by rw [e2], by simp [e2], by simp [e2], by simp [e2, hempty]⟩
    · have e3 : hashtable_insert ht i =
          ({ ht with
              buckets := fun j => if j = bucketIdx ht i then
                ht.buckets (bucketIdx ht i) ++ [i] else ht.buckets j,
              entries := ht.entries + 1,
              collisions := ht.collisions + 1 }, true) := by
        unfold hashtable_insert
        simp [hempty, hdup]
      have hcount := countP_range_update ht.size (bucketIdx ht i)
        (fun j => !(ht.buckets j).isEmpty)
        (fun j => !((if j = bucketIdx ht i then
          ht.buckets (bucketIdx ht i) ++ [i] else ht.buckets j)).isEmpty)
        hidx (by intro x hx; simp [hx])
      simp [hempty] at hcount
      refine ⟨by rw [e3], by simp [e3], by simp [e3, hempty], ?_⟩
      simp only [e3]
      unfold hashtable_filled_buckets
      simp [hempty]
      omega

/-- Accumulated effect of any sequence of inserts: the three counters equal
the counts of the corresponding observable events of the sequence. -/
theorem insertAll_counts : ∀ (ops : List Instr) (ht : Hashtable), 0 < ht.size →
    (insertAll ht ops).size = ht.size ∧
    (insertAll ht ops).entries = ht.entries + countTrue ht ops ∧
    (insertAll ht ops).collisions = ht.collisions + countColl ht ops ∧
    hashtable_filled_buckets (insertAll ht ops) =
      hashtable_filled_buckets ht + countFresh ht ops := by
  intro ops
  induction ops with
  | nil => intro ht hS; simp [insertAll, countTrue, countColl, countFresh]
  | cons i rest ih =>
    intro ht hS
    have hstep := hashtable_insert_step ht i hS
    have hS' : 0 < (hashtable_insert ht i).1.size := by rw [hstep.1]; exact hS
    have hall : insertAll ht (i :: rest) = insertAll (hashtable_insert ht i).1 rest := rfl
    have ihr := ih (hashtable_insert ht i).1 hS'
    rw [hall]
    refine ⟨by rw [ihr.1, hstep.1], ?_, ?_, ?_⟩
    · rw [ihr.2.1, hstep.2.1]
      show _ = ht.entries + countTrue ht (i :: rest)
      rw [countTrue]
      omega
    · rw [ihr.2.2.1, hstep.2.2.1]
      show _ = ht.collisions + countColl ht (i :: rest)
      rw [countColl]
      omega
    · rw [ihr.2.2.2, hstep.2.2.2]
      show _ = hashtable_filled_buckets ht + countFresh ht (i :: rest)
      rw [countFresh]
      omega

end Traces

namespace Traces

/-- C6 — After any sequence of `hashtable_insert` calls on a table created
by `hashtable_new`, of which `E` returned true, `B` buckets went from empty
to non-empty and `C` insertions appended to an already non-empty bucket,
the accessors return `entries() == E`, `filled_buckets() == B` and
`collisions() == C`; moreover a single insertion into an empty bucket never
increments the collision counter, and every successful insertion into a
non-empty bucket does. -/
theorem hashtable_counters_spec (S : Nat) (ht0 : Hashtable)
    (hnew : hashtable_new S = some ht0) (ops : List Instr) :
    hashtable_entries (insertAll ht0 ops) = countTrue ht0 ops ∧
    hashtable_collisions (insertAll ht0 ops) = countColl ht0 ops ∧
    hashtable_filled_buckets (insertAll ht0 ops) = countFresh ht0 ops ∧
    (∀ (ht : Hashtable) (i : Instr),
      (ht.buckets (bucketIdx ht i) = [] →
        (hashtable_insert ht i).1.collisions = ht.collisions) ∧
      (ht.buckets (bucketIdx ht i) ≠ [] → (hashtable_insert ht i).2 = true →
        (hashtable_insert ht i).1.collisions = ht.collisions + 1)) := by
  have hS : S ≠ 0 ∧ ht0 = ⟨S, 0, 0, fun _ => []⟩ := by
    unfold hashtable_new at hnew
    by_cases h : S = 0
    · simp [h] at hnew
    · simp [h] at hnew
      exact ⟨h, hnew.symm⟩
  obtain ⟨hSne, hht⟩ := hS
  subst hht
  have hpos : 0 < (⟨S, 0, 0, fun _ => []⟩ : Hashtable).size := by
    show 0 < S
    omega
  have hmain := insertAll_counts ops ⟨S, 0, 0, fun _ => []⟩ hpos
  have hzero : hashtable_filled_buckets ⟨S, 0, 0, fun _ => []⟩ = 0 := by
    unfold hashtable_filled_buckets
    exact List.countP_eq_zero.mpr (by simp)
  refine ⟨?_, ?_, ?_, ?_⟩
  · show (insertAll _ ops).entries = _
    rw [hmain.2.1]
    simp
  · show (insertAll _ ops).collisions = _
    rw [hmain.2.2.1]
    simp
  · rw [hmain.2.2.2, hzero]
    simp
  · intro ht i
    constructor
    · intro hempty
      unfold hashtable_insert
      simp [hempty]
    · intro hne hok
      by_cases hdup : (ht.buckets (bucketIdx ht i)).any (fun e => identMatch e i)
      · exfalso
        unfold hashtable_insert at hok
        simp [hne, hdup] at hok
      · unfold hashtable_insert
        simp [hne, hdup]

/-! ### C6 witness material: the hash store of the repository's own test -/

/-- The table `hashtable_new 4` returns. -/
def htFour : Hashtable := ⟨4, 0, 0, fun _ => []⟩

/-- The ten distinct instructions inserted by `tests/test_traces.c` (the
fifth is built with `size` 5 from a four-character string, so its last
opcode byte is the string's terminating 0x00). -/
def testOps : List Instr :=
  [ ⟨0xdeadbeef, [0x00, 0x11, 0x22, 0x77]⟩,
    ⟨0xabad1dea, [0xbb, 0xcc]⟩,
    ⟨0xcafebabe, [0xdd, 0xee, 0xff]⟩,
    ⟨0xdeadbeef, [0x00, 0x11, 0x22, 0x33]⟩,
    ⟨0xf001beef, [0x44, 0x55, 0x66, 0x77, 0x00]⟩,
    ⟨0xdeadbeef, [0x88, 0x99, 0xaa, 0xbb, 0xcc, 0xde]⟩,
    ⟨0xac001dad, [0x88, 0x99, 0xaa, 0xbb, 0xcc, 0xde, 0xad]⟩,
    ⟨0xfedcbaaa, [0x88, 0x99, 0xaa, 0xbb, 0xcc, 0xde, 0xad, 0xbe]⟩,
    ⟨0xffffffff, [0x88, 0x99, 0xaa, 0xbb, 0xcc, 0xde, 0xad, 0xbe, 0xef]⟩,
    ⟨0xeeeeeeee, [0x88, 0x99, 0xaa, 0xbb, 0xcc, 0xde, 0xad, 0xbe, 0xef, 0xca]⟩ ]

/-- Witness for C6, instantiating the counter theorem on the concrete store
of the repository's test (`hashtable_new 4` and its ten insertions). -/
theorem hashtable_counters_spec_witness :
    hashtable_new 4 = some htFour ∧
    hashtable_entries (insertAll htFour testOps) = countTrue htFour testOps ∧
    hashtable_collisions (insertAll htFour testOps) = countColl htFour testOps :=
  ⟨rfl, (hashtable_counters_spec 4 htFour rfl testOps).1,
    (hashtable_counters_spec 4 htFour rfl testOps).2.1⟩

/-- The model reproduces the accessor values asserted by the repository's
test and the specification's seed scenario 2: ten entries, six collisions,
all four buckets filled, and a re-insertion returns `false`. -/
theorem test_traces_scenario :
    hashtable_entries (insertAll htFour testOps) = 10 ∧
    hashtable_collisions (insertAll htFour testOps) = 6 ∧
    hashtable_filled_buckets (insertAll htFour testOps) = 4 ∧
    (hashtable_insert (insertAll htFour testOps)
      ⟨0xdeadbeef, [0x00, 0x11, 0x22, 0x33]⟩).2 = false := by
  decide

end Traces

namespace Traces

/-! ### Trace comparison (C5) -/

/-- The comparison loop returns 0 exactly when the two (non-empty) suffixes
are the same sequence of handles. -/
theorem trace_compare_walk_eq_zero :
    ∀ (as : List Nat) (bs : List Nat) (a b c : Nat), 1 ≤ c →
      (trace_compare_walk (a :: as) (b :: bs) c = 0 ↔ (a = b ∧ as = bs)) := by
  intro as
  induction as with
  | nil =>
    intro bs a b c hc
    cases bs with
    | nil =>
      by_cases hab : a = b
      · simp [trace_compare_walk, hab]
      · simp [trace_compare_walk, hab]
        all_goals omega
    | cons b' bs' =>
      by_cases hab : a = b
      · simp [trace_compare_walk, hab]
      · simp [trace_compare_walk, hab]
        all_goals omega
  | cons a' as' ih =>
    intro bs a b c hc
    cases bs with
    | nil =>
      by_cases hab : a = b
      · simp [trace_compare_walk, hab]
      · simp [trace_compare_walk, hab]
        all_goals omega
    | cons b' bs' =>
      by_cases hab : a = b
      · have := ih bs' a' b' (c + 1) (by omega)
        simp [trace_compare_walk, hab, this]
      · simp [trace_compare_walk, hab]
        all_goals omega

/-- When the comparison loop stops with a non-zero count, the count is at
least the starting count and indexes (relative to the starting count) a
position where the two suffixes hold different handles — or where exactly
one of them has run out. -/
theorem trace_compare_walk_diff :
    ∀ (as : List Nat) (bs : List Nat) (a b c : Nat), 1 ≤ c →
      trace_compare_walk (a :: as) (b :: bs) c ≠ 0 →
      c ≤ trace_compare_walk (a :: as) (b :: bs) c ∧
        (a :: as).get? (trace_compare_walk (a :: as) (b :: bs) c - c) ≠
          (b :: bs).get? (trace_compare_walk (a :: as) (b :: bs) c - c) := by
  intro as
  induction as with
  | nil =>
    intro bs a b c hc hne
    cases bs with
    | nil =>
      by_cases hab : a = b
      · exfalso
        simp [trace_compare_walk, hab] at hne
      · simp [trace_compare_walk, hab] at hne ⊢
    | cons b' bs' =>
      by_cases hab : a = b
      · simp [trace_compare_walk, hab] at hne ⊢
      · simp [trace_compare_walk, hab] at hne ⊢
  | cons a' as' ih =>
    intro bs a b c hc hne
    cases bs with
    | nil =>
      by_cases hab : a = b
      · simp [trace_compare_walk, hab] at hne ⊢
      · simp [trace_compare_walk, hab] at hne ⊢
    | cons b' bs' =>
      by_cases hab : a = b
      · have hrec : trace_compare_walk (a :: a' :: as') (b :: b' :: bs') c =
            trace_compare_walk (a' :: as') (b' :: bs') (c + 1) := by
          simp [trace_compare_walk, hab]
        rw [hrec] at hne ⊢
        have hih := ih bs' a' b' (c + 1) (by omega) hne
        refine ⟨by omega, ?_⟩
        have harith : trace_compare_walk (a' :: as') (b' :: bs') (c + 1) - c =
            (trace_compare_walk (a' :: as') (b' :: bs') (c + 1) - (c + 1)) + 1 := by
          omega
        rw [harith]
        simpa using hih.2
      · simp [trace_compare_walk, hab] at hne ⊢

/-- Strictly before the position at which the comparison loop stops, the two
suffixes hold the *same* handles (so the stop position is the first
difference, not merely a difference). -/
theorem trace_compare_walk_prefix :
    ∀ (as : List Nat) (bs : List Nat) (a b c : Nat), 1 ≤ c →
      ∀ j, j < trace_compare_walk (a :: as) (b :: bs) c - c →
        (a :: as).get? j = (b :: bs).get? j := by
  intro as
  induction as with
  | nil =>
    intro bs a b c hc j hj
    cases bs with
    | nil =>
      by_cases hab : a = b
      · simp [trace_compare_walk, hab] at hj
      · simp [trace_compare_walk, hab] at hj
    | cons b' bs' =>
      by_cases hab : a = b
      · simp [trace_compare_walk, hab] at hj
        have hj0 : j = 0 := by omega
        subst hj0
        simp [hab]
      · simp [trace_compare_walk, hab] at hj
  | cons a' as' ih =>
    intro bs a b c hc j hj
    cases bs with
    | nil =>
      by_cases hab : a = b
      · simp [trace_compare_walk, hab] at hj
        have hj0 : j = 0 := by omega
        subst hj0
        simp [hab]
      · simp [trace_compare_walk, hab] at hj
    | cons b' bs' =>
      by_cases hab : a = b
      · have hrec : trace_compare_walk (a :: a' :: as') (b :: b' :: bs') c =
            trace_compare_walk (a' :: as') (b' :: bs') (c + 1) := by
          simp [trace_compare_walk, hab]
        rw [hrec] at hj
        by_cases hr : trace_compare_walk (a' :: as') (b' :: bs') (c + 1) = 0
        · rw [hr] at hj
          omega
        · have hge :=
            (trace_compare_walk_diff as' bs' a' b' (c + 1) (by omega) hr).1
          cases j with
          | zero => simp [hab]
          | succ j' =>
            have hj' : j' <
                trace_compare_walk (a' :: as') (b' :: bs') (c + 1) - (c + 1) := by
              omega
            have := ih bs' a' b' (c + 1) (by omega) j' hj'
            simpa using this
      · simp [trace_compare_walk, hab] at hj

/-- C5 (amended) — `trace_compare` returns 0 exactly for identical
*non-empty* traces; when either trace is empty (both included) it returns 1;
any non-zero return is a position `k ≥ 1` that is the *first* difference:
for two non-empty traces the handles at 1-based position `k` differ (or
exactly one trace ends before position `k`), while at every position
strictly before `k` the two traces agree. -/
theorem trace_compare_spec_amended (t1 t2 : List Nat) :
    (trace_compare t1 t2 = 0 ↔ (t1 = t2 ∧ t1 ≠ [])) ∧
    ((t1 = [] ∨ t2 = []) → trace_compare t1 t2 = 1) ∧
    (trace_compare t1 t2 ≠ 0 → 1 ≤ trace_compare t1 t2) ∧
    (t1 ≠ [] → t2 ≠ [] → trace_compare t1 t2 ≠ 0 →
      t1.get? (trace_compare t1 t2 - 1) ≠ t2.get? (trace_compare t1 t2 - 1)) ∧
    (∀ j, j + 1 < trace_compare t1 t2 → t1.get? j = t2.get? j) := by
  cases t1 with
  | nil =>
    refine ⟨by simp [trace_compare], by simp [trace_compare],
      by simp [trace_compare], by simp, ?_⟩
    intro j hj
    simp [trace_compare] at hj
  | cons a as =>
    cases t2 with
    | nil =>
      refine ⟨by simp [trace_compare], by simp [trace_compare],
        by simp [trace_compare], by simp, ?_⟩
      intro j hj
      simp [trace_compare] at hj
    | cons b bs =>
      have hne1 : (a :: as : List Nat) ≠ [] := by simp
      have hne2 : (b :: bs : List Nat) ≠ [] := by simp
      have hcomp : trace_compare (a :: as) (b :: bs) =
          trace_compare_walk (a :: as) (b :: bs) 1 := by
        simp [trace_compare]
      refine ⟨?_, by simp, ?_, ?_, ?_⟩
      · rw [hcomp, trace_compare_walk_eq_zero as bs a b 1 (by omega)]
        simp
      · intro hne
        rw [hcomp] at hne ⊢
        exact (trace_compare_walk_diff as bs a b 1 (by omega) hne).1
      · intro _ _ hne
        rw [hcomp] at hne ⊢
        exact (trace_compare_walk_diff as bs a b 1 (by omega) hne).2
      · intro j hj
        rw [hcomp] at hj
        exact trace_compare_walk_prefix as bs a b 1 (by omega) j (by omega)

/-- Counterexample to C5 as stated: on two empty traces — equal sequences —
`trace_compare` returns 1, not 0 (the code's empty-head special case fires
before any element comparison). -/
theorem trace_compare_empty_counterexample :
    trace_compare ([] : List Nat) ([] : List Nat) = 1 ∧
    trace_compare ([] : List Nat) ([] : List Nat) ≠ 0 := by
  decide

/-- Witness for the amended C5 theorem at concrete traces `[5, 6]` and
`[5, 7]`: the result is non-zero, the 1-based position it returns carries
different handles, and the position before it carries equal handles. -/
theorem trace_compare_spec_amended_witness :
    ([5, 6] : List Nat) ≠ [] ∧ ([5, 7] : List Nat) ≠ [] ∧
    trace_compare [5, 6] [5, 7] ≠ 0 ∧
    ([5, 6] : List Nat).get? (trace_compare [5, 6] [5, 7] - 1) ≠
      ([5, 7] : List Nat).get? (trace_compare [5, 6] [5, 7] - 1) ∧
    (0 : Nat) + 1 < trace_compare [5, 6] [5, 7] ∧
    ([5, 6] : List Nat).get? 0 = ([5, 7] : List Nat).get? 0 :=
  ⟨by decide, by decide, by decide,
    (trace_compare_spec_amended [5, 6] [5, 7]).2.2.2.1 (by decide) (by decide)
      (by decide),
    by decide,
    (trace_compare_spec_amended [5, 6] [5, 7]).2.2.2.2 0 (by decide)⟩

/-! ### Positional access (C8) -/

/-- C8 — the code, evaluated at the failing inputs: on an *empty* trace
every `index ≥ 1` dereferences a NULL node (`current->instr` for `index 1`,
`current->next` beyond), instead of returning nil as specified; `index 0`
does fail with `EINVAL`, and on a non-empty trace an out-of-range index does
return nil. -/
theorem trace_get_empty_crashes :
    trace_get ([] : List Nat) 1 = GetResult.crash ∧
    trace_get ([] : List Nat) 2 = GetResult.crash ∧
    trace_get ([] : List Nat) 0 = GetResult.einval ∧
    trace_get ([7] : List Nat) 2 = GetResult.ok none ∧
    trace_get ([7] : List Nat) 1 = GetResult.ok (some 7) := by
  decide

/-! ### Append is a pure extension (C10) -/

/-- Walking fewer steps than the length of the prefix never reaches the
appended element. -/
theorem trace_get_walk_append :
    ∀ (l : List Nat) (i steps : Nat), steps < l.length →
      trace_get_walk (l ++ [i]) steps = trace_get_walk l steps := by
  intro l
  induction l with
  | nil => intro i steps h; simp at h
  | cons x xs ih =>
    intro i steps h
    cases steps with
    | zero => simp [trace_get_walk]
    | succ s =>
      have hxs : xs ≠ [] := by
        intro hx
        subst hx
        simp at h
      have hlen : s < xs.length := by
        simp at h
        omega
      have hxsi : xs ++ [i] ≠ [] := by simp
      rw [List.cons_append]
      rw [show trace_get_walk (x :: (xs ++ [i])) (s + 1) =
            if xs ++ [i] = [] then GetResult.ok none
            else trace_get_walk (xs ++ [i]) s from rfl]
      rw [show trace_get_walk (x :: xs) (s + 1) =
            if xs = [] then GetResult.ok none else trace_get_walk xs s from rfl]
      rw [if_neg hxsi, if_neg hxs]
      exact ih i s hlen

/-- Walking exactly `l.length` steps lands on the appended element. -/
theorem trace_get_walk_append_last :
    ∀ (l : List Nat) (i : Nat),
      trace_get_walk (l ++ [i]) l.length = GetResult.ok (some i) := by
  intro l
  induction l with
  | nil => intro i; simp [trace_get_walk]
  | cons x xs ih =>
    intro i
    have hxsi : xs ++ [i] ≠ [] := by simp
    rw [List.cons_append, List.length_cons]
    rw [show trace_get_walk (x :: (xs ++ [i])) (xs.length + 1) =
          if xs ++ [i] = [] then GetResult.ok none
          else trace_get_walk (xs ++ [i]) xs.length from rfl]
    rw [if_neg hxsi]
    exact ih i

/-- C10 — a (successful) `trace_append` grows the length by exactly one,
leaves every previously occupied 1-based position unchanged, and makes
position `old length + 1` return the appended handle. -/
theorem trace_append_frame (tr : List Nat) (i : Nat) :
    trace_length (trace_append tr i) = trace_length tr + 1 ∧
    (∀ k, 1 ≤ k → k ≤ trace_length tr →
      trace_get (trace_append tr i) k = trace_get tr k) ∧
    trace_get (trace_append tr i) (trace_length tr + 1) = GetResult.ok (some i) := by
  refine ⟨by simp [trace_length, trace_append], ?_, ?_⟩
  · intro k h1 hlen
    unfold trace_get
    rw [if_neg (by omega), if_neg (by omega)]
    exact trace_get_walk_append tr i (k - 1) (by
      unfold trace_length at hlen
      omega)
  · unfold trace_get
    rw [if_neg (by omega)]
    have : trace_length tr + 1 - 1 = tr.length := by
      unfold trace_length
      omega
    rw [this]
    exact trace_get_walk_append_last tr i

/-- Witness for C10 at the concrete trace `[3, 4]` with appended handle `9`
and preserved position `k = 2`. -/
theorem trace_append_frame_witness :
    trace_length (trace_append [3, 4] 9) = trace_length [3, 4] + 1 ∧
    (1 : Nat) ≤ 2 ∧ (2 : Nat) ≤ trace_length [3, 4] ∧
    trace_get (trace_append [3, 4] 9) 2 = trace_get [3, 4] 2 ∧
    trace_get (trace_append [3, 4] 9) (trace_length [3, 4] + 1) =
      GetResult.ok (some 9) :=
  ⟨(trace_append_frame [3, 4] 9).1, by decide, by decide,
    (trace_append_frame [3, 4] 9).2.1 2 (by decide) (by decide),
    (trace_append_frame [3, 4] 9).2.2⟩

/-! ### Duplicate detection uses `strncmp` on raw bytes (C1) -/

/-- Two instructions with the same address and size whose opcode sequences
share a leading 0x00 byte but differ afterwards. -/
def iNulA : Instr := ⟨0, [0x00, 0x11]⟩

/-- Second instruction of the C1 failing input: identical to `iNulA` up to
the terminating-NUL prefix seen by `strncmp`, but a different identity
triple. -/
def iNulB : Instr := ⟨0, [0x00, 0x22]⟩

/-- The table `hashtable_new 1` returns (a single bucket, so the two
instructions necessarily share it). -/
def htOne : Hashtable := ⟨1, 0, 0, fun _ => []⟩

/-- C1 — the code, evaluated at the failing input: after inserting `iNulA`,
inserting `iNulB` — whose `(address, size, opcodes)` identity is *not*
present (the sole bucket holds only `iNulA`, and `iNulA ≠ iNulB`) — returns
`false` and inserts nothing, because the duplicate scan compares opcodes
with `strncmp`, which stops at the first 0x00 byte.  The claim (and §4.C)
requires `true` for an absent identity. -/
theorem hashtable_insert_strncmp_bug :
    hashtable_new 1 = some htOne ∧
    (hashtable_insert htOne iNulA).2 = true ∧
    (hashtable_insert htOne iNulA).1.buckets 0 = [iNulA] ∧
    iNulA ≠ iNulB ∧
    (hashtable_insert (hashtable_insert htOne iNulA).1 iNulB).2 = false ∧
    (hashtable_insert (hashtable_insert htOne iNulA).1 iNulB).1.entries = 1 ∧
    (hashtable_insert (hashtable_insert htOne iNulA).1 iNulB).1.buckets 0 = [iNulA] :=
  ⟨rfl, by decide, by decide, by decide, by decide, by decide, by decide⟩

end Traces

namespace Traces

/-- C7 — `fasthash64` computes exactly the function specified in §4.B
(seed ^ (len * m) initialisation, little-endian block folds, trailing-byte
fold, final mix, all modulo `2 ^ 64`), and `hash_instr` is
`fasthash64 (opcodes, size, seed = address)`. -/
theorem fasthash64_claim (buf : List Nat) (seed : Nat)
    (hbytes : ∀ b ∈ buf, b < 256) :
    fasthash64 buf seed = fasthash64_spec buf seed ∧
    ∀ i : Instr, i.opcodes = buf → i.address = seed →
      hash_instr i = fasthash64_spec buf seed := by
  refine ⟨fasthash64_eq_spec buf seed hbytes, ?_⟩
  intro i h1 h2
  rw [hash_instr, h1, h2]
  exact fasthash64_eq_spec buf seed hbytes

/-- Witness for C7 on the four opcode bytes and address of the
specification's instruction round-trip scenario. -/
theorem fasthash64_claim_witness :
    (∀ b ∈ ([0xbe, 0xba, 0xfe, 0xca] : List Nat), b < 256) ∧
    fasthash64 [0xbe, 0xba, 0xfe, 0xca] 0xdeadbeef =
      fasthash64_spec [0xbe, 0xba, 0xfe, 0xca] 0xdeadbeef ∧
    hash_instr ⟨0xdeadbeef, [0xbe, 0xba, 0xfe, 0xca]⟩ =
      fasthash64_spec [0xbe, 0xba, 0xfe, 0xca] 0xdeadbeef :=
  ⟨by decide,
    (fasthash64_claim [0xbe, 0xba, 0xfe, 0xca] 0xdeadbeef (by decide)).1,
    (fasthash64_claim [0xbe, 0xba, 0xfe, 0xca] 0xdeadbeef (by decide)).2
      ⟨0xdeadbeef, [0xbe, 0xba, 0xfe, 0xca]⟩ rfl rfl⟩

end Traces

/-! ## `Trace` — model of `src/trace.c` (the CFG builder) -/

namespace Trace

/-- `instr_type_t` of `trace.c`: 0 = instr (BASIC), 1 = branch, 2 = call,
3 = jmp, 4 = ret. -/
inductive IType where
  | BASIC : IType
  | BRANCH : IType
  | CALL : IType
  | JUMP : IType
  | RET : IType
deriving DecidableEq

/-- `struct _instr_t` of `trace.c`: address, classification, opcode size and
opcode bytes.  The model keeps `size` as the stored field (always the length
of `opcodes` for records built by `instr_new`). -/
structure Instr where
  address : Nat
  type : IType
  size : Nat
  opcodes : List Nat
deriving DecidableEq

/-- The classification cascade of `instr_new` (`trace.c`, lines 46-65),
transcribed condition for condition; `b0`/`b1` are `opcodes[0]`/`opcodes[1]`
of the decoder's byte window and `mnem` the mnemonic string passed as
`str_name` (`strstr (str_name, s)` is substring containment). -/
def classify (b0 b1 size : Nat) (mnem : List Char) : IType :=
  if (0x70 ≤ b0 ∧ b0 ≤ 0x7F) ∨ (b0 = 0x0F ∧ 0x80 ≤ b1 ∧ b1 ≤ 0x8F) then
    .BRANCH
  else if b0 = 0xE8 ∨ b0 = 0x9A ∨ (b0 = 0xFF ∧ (size = 2 ∨ size = 3)) ∨
      (b0 = 0x41 ∧ b1 = 0xFF ∧ ("call".toList <:+: mnem)) then
    .CALL
  else if (0xE9 ≤ b0 ∧ b0 ≤ 0xEB) ∨ (b0 = 0xFF ∧ (size = 4 ∨ size = 5)) ∨
      (0xE0 ≤ b0 ∧ b0 ≤ 0xE3) ∨
      (b0 = 0x41 ∧ b1 = 0xFF ∧ ("jmp".toList <:+: mnem)) then
    .JUMP
  else if ((b0 = 0xC3 ∨ b0 = 0xCB) ∧ size = 1) ∨
      ((b0 = 0xC2 ∨ b0 = 0xCA) ∧ size = 3) ∨
      (b0 = 0xF3 ∧ b1 = 0xC3 ∧ size = 2) then
    .RET
  else .BASIC

/-- `instr_new` of `trace.c`: `EINVAL` (modelled `none`) when `size == 0` or
the opcode buffer is absent; otherwise copy `size` bytes and classify from
the byte window (the caller always passes the full 16-byte decode window, so
`opcodes[1]` is readable even when `size == 1`). -/
def instr_new (addr : Nat) (size : Nat) (opcodes : Option (List Nat))
    (mnem : List Char) : Option Instr :=
  match opcodes with
  | none => none
  | some buf =>
      if size = 0 then none
      else some ⟨addr, classify (buf.getD 0 0) (buf.getD 1 0) size mnem,
        size, buf.take size⟩

/-- `hash_instr` of `trace.c` (identical to the `traces.c` one). -/
def hash_instr (i : Instr) : Nat := fasthash64 i.opcodes i.address

/-- A CFG node (`struct _cfg_t`): its instruction, in/out degrees, the
function identifier `name`, and the successor array (a partial map from
array index to node identifier; capacity and the `str_graph` pretty-printing
string carry no observable state and are not modelled). -/
structure Node where
  instruction : Instr
  nb_in : Nat
  nb_out : Nat
  name : Nat
  successor : Nat → Option Nat

/-- The global builder state of `trace.c`: the heap of CFG nodes (node
identifiers are allocation order; the heap is total, unallocated identifiers
hold an inert default), the allocation counter, the globals `depth`,
`nb_name`, `stack` (callers indexed by depth) and `function_entry`, and the
node hash table (`htsize` buckets of node identifiers, deduplicated by
instruction *address* only, as `trace.c` does). -/
structure St where
  heap : Nat → Node
  nextId : Nat
  depth : Nat
  nb_name : Nat
  stack : Nat → Option Nat
  function_entry : Nat → Option Nat
  htsize : Nat
  buckets : Nat → List Nat

/-- Apply an update to the node a given identifier denotes. -/
def updHeap (s : St) (id : Nat) (f : Node → Node) : St :=
  { s with heap := fun k => if k = id then f (s.heap k) else s.heap k }

/-- The linkage body shared by every branch of `aux_cfg_insert`:
`src->successor[slot] = dst; src->nb_out++; dst->nb_in++;
dst->name = src->name` (the name is read after the source's mutation, which
leaves `name` untouched). -/
def linkFrom (s : St) (src dst slot : Nat) : St :=
  let s1 := updHeap s src (fun n =>
    { n with
        successor := fun j => if j = slot then some dst else n.successor j,
        nb_out := n.nb_out + 1 })
  let s2 := updHeap s1 dst (fun n => { n with nb_in := n.nb_in + 1 })
  updHeap s2 dst (fun n => { n with name := (s2.heap src).name })

/-- `hashtable_insert` of `trace.c` as called from `cfg_new` (the boolean
result is discarded there): empty bucket — place the node; otherwise scan
for an entry whose instruction has the *same address* and, if found, return
without inserting (the C code returns `true` for such a duplicate); else
append the node to the bucket. -/
def ht_insert_node (s : St) (nid : Nat) : St :=
  let idx := hash_instr (s.heap nid).instruction % s.htsize
  let b := s.buckets idx
  if b = [] then
    { s with buckets := fun j => if j = idx then [nid] else s.buckets j }
  else if b.any (fun k =>
      (s.heap k).instruction.address == (s.heap nid).instruction.address) then
    s
  else
    { s with buckets := fun j => if j = idx then b ++ [nid] else s.buckets j }

/-- `hashtable_lookup` of `trace.c`: scan the selected bucket for the first
node whose instruction has the same address. -/
def ht_lookup (s : St) (ins : Instr) : Option Nat :=
  (s.buckets (hash_instr ins % s.htsize)).find? (fun k =>
    (s.heap k).instruction.address == ins.address)

/-- `cfg_new` of `trace.c`: allocate a node with zero degrees, `name = 0`
and an all-NULL successor array, then register it in the hash table.  The
`str_graph` string is not modelled. -/
def cfg_new (s : St) (ins : Instr) : St × Nat :=
  let nid := s.nextId
  let s1 := { s with
    heap := fun k => if k = nid then
      ⟨ins, 0, 0, 0, fun _ => none⟩ else s.heap k,
    nextId := nid + 1 }
  (ht_insert_node s1 nid, nid)

/-- `aux_cfg_insert` of `trace.c`.  The outer `none` marks undefined
behaviour of the C code (call-stack under-run `depth--` from 0 followed by
the out-of-bounds read `stack[65535]`, or a NULL caller dereference); the
inner `Option Nat` is the C return value (`none` = NULL = refused).
Branches, in source order: a non-RET node with a NULL first successor takes
`successor[0]`; otherwise BRANCH refuses beyond two out-edges and fills
`successor[1]`; JUMP appends at `successor[nb_out]`; RET pops the caller,
relinks from it when the new node's address is exactly past the caller
(`caller.address + caller.size`), otherwise restores the stack depth and
links from the current node; BASIC and CALL have no `switch` case and fall
through without linking. -/
def aux_cfg_insert (s : St) (cfgId newId : Nat) : Option (St × Option Nat) :=
  let C := s.heap cfgId
  if C.instruction.type ≠ IType.RET ∧ C.successor 0 = none then
    some (linkFrom s cfgId newId 0, some newId)
  else
    match C.instruction.type with
    | IType.BRANCH =>
        if 2 ≤ C.nb_out then some (s, none)
        else some (linkFrom s cfgId newId 1, some newId)
    | IType.JUMP => some (linkFrom s cfgId newId C.nb_out, some newId)
    | IType.RET =>
        if s.depth = 0 then none
        else
          let d := s.depth - 1
          match s.stack d with
          | none => none
          | some cid =>
              if (s.heap newId).instruction.address =
                  (s.heap cid).instruction.address +
                    (s.heap cid).instruction.size then
                let s1 := { s with
                  stack := fun j => if j = d then none else s.stack j,
                  depth := d }
                some (linkFrom s1 cid newId ((s1.heap cid).nb_out), some newId)
              else
                some (linkFrom s cfgId newId ((s.heap cfgId).nb_out), some newId)
    | IType.BASIC => some (s, some newId)
    | IType.CALL => some (s, some newId)

/-- `cfg_insert` of `trace.c`.  Look the instruction up by address; on a
miss build a new node and — when the current node is a CALL — allocate the
next function identifier `nb_name + 1`, record the new node as that
function's entry and push the current node; on a hit push the current node
when it is a CALL, drop the redundant instruction, return the node
unchanged when it is already a successor of the current node (compared by
address), and otherwise link.  The unused `Agraph_t` argument of the C
signature carries no state. -/
def cfg_insert (s : St) (cfgId : Nat) (ins : Instr) : Option (St × Option Nat) :=
  match ht_lookup s ins with
  | none =>
      let p := cfg_new s ins
      let s2 :=
        if (p.1.heap cfgId).instruction.type = IType.CALL then
          { p.1 with
              nb_name := p.1.nb_name + 1,
              function_entry := fun j =>
                if j = p.1.nb_name + 1 then some p.2 else p.1.function_entry j,
              stack := fun j => if j = p.1.depth then some cfgId else p.1.stack j,
              depth := p.1.depth + 1 }
        else p.1
      aux_cfg_insert s2 cfgId p.2
  | some nid =>
      let s1 :=
        if (s.heap cfgId).instruction.type = IType.CALL then
          { s with
              stack := fun j => if j = s.depth then some cfgId else s.stack j,
              depth := s.depth + 1 }
        else s
      if (List.range (s1.heap cfgId).nb_out).any (fun k =>
          match (s1.heap cfgId).successor k with
          | some sid => (s1.heap sid).instruction.address ==
              (s1.heap nid).instruction.address
          | none => false) then
        some (s1, some nid)
      else aux_cfg_insert s1 cfgId nid

end Trace

namespace Trace

/-! ### Instruction classification (C4) -/

/-- The classification exactly as the specification §4.A words it: ordered
rules, first match wins, with the opcode ranges as intervals and the size
sets as written there. -/
def classify_spec (b0 b1 size : Nat) (mnem : List Char) : IType :=
  if b0 ∈ Finset.Icc 0x70 0x7F ∨ (b0 = 0x0F ∧ b1 ∈ Finset.Icc 0x80 0x8F) then
    .BRANCH
  else if b0 = 0xE8 ∨ b0 = 0x9A ∨ (b0 = 0xFF ∧ size ∈ ({2, 3} : Finset Nat)) ∨
      (b0 = 0x41 ∧ b1 = 0xFF ∧ ("call".toList <:+: mnem)) then
    .CALL
  else if b0 ∈ Finset.Icc 0xE9 0xEB ∨ (b0 = 0xFF ∧ size ∈ ({4, 5} : Finset Nat)) ∨
      b0 ∈ Finset.Icc 0xE0 0xE3 ∨
      (b0 = 0x41 ∧ b1 = 0xFF ∧ ("jmp".toList <:+: mnem)) then
    .JUMP
  else if ((b0 = 0xC3 ∨ b0 = 0xCB) ∧ size = 1) ∨
      ((b0 = 0xC2 ∨ b0 = 0xCA) ∧ size = 3) ∨
      (b0 = 0xF3 ∧ b1 = 0xC3 ∧ size = 2) then
    .RET
  else .BASIC

/-- C4 — the constructor's classification cascade is exactly the
specification's ordered first-match rule table, and every successfully
constructed instruction carries the class that table assigns to its byte
window, size and mnemonic. -/
theorem classify_matches_spec (b0 b1 size : Nat) (mnem : List Char) :
    classify b0 b1 size mnem = classify_spec b0 b1 size mnem ∧
    (∀ (addr : Nat) (buf : List Nat) (i : Instr),
      instr_new addr size (some buf) mnem = some i →
      i.type = classify_spec (buf.getD 0 0) (buf.getD 1 0) size mnem) := by
  have hmain : ∀ x0 x1 xs : Nat, ∀ m : List Char,
      classify x0 x1 xs m = classify_spec x0 x1 xs m := by
    intro x0 x1 xs m
    unfold classify classify_spec
    simp only [Finset.mem_Icc, Finset.mem_insert, Finset.mem_singleton]
  refine ⟨hmain b0 b1 size mnem, ?_⟩
  intro addr buf i hnew
  unfold instr_new at hnew
  by_cases hsz : size = 0
  · simp [hsz] at hnew
  · simp only [hsz, if_neg, ite_false, Option.some.injEq] at hnew
    rw [← hnew]
    exact hmain _ _ _ _

/-- Witness for C4: the one-byte `ret` encoding 0xC3 with a stale second
window byte is classified RET both by the code and by the table, also
through `instr_new`. -/
theorem classify_matches_spec_witness :
    classify 0xC3 0x00 1 [] = classify_spec 0xC3 0x00 1 [] ∧
    instr_new 5 1 (some [0xC3, 0x00]) [] =
      some ⟨5, IType.RET, 1, [0xC3]⟩ ∧
    (⟨5, IType.RET, 1, [0xC3]⟩ : Instr).type =
      classify_spec ([0xC3, 0x00].getD 0 0) ([0xC3, 0x00].getD 1 0) 1 [] :=
  ⟨(classify_matches_spec 0xC3 0x00 1 []).1, by decide,
    (classify_matches_spec 0xC3 0x00 1 []).2 5 [0xC3, 0x00]
      ⟨5, IType.RET, 1, [0xC3]⟩ (by decide)⟩

end Trace

namespace Trace

/-! ### BRANCH nodes cap their out-edges at two (C9) -/

/-- C9 — for a BRANCH node `X`: with no first successor the new edge goes
to `successor[0]`; with a first successor and `nb_out = 1` the second edge
goes to `successor[1]` and the first is untouched; with two out-edges
already present the insertion is refused (`NULL` result) and the whole state
— in particular `X`'s two edges — is left unchanged. -/
theorem branch_successor_cap (s : St) (X nId : Nat)
    (htype : (s.heap X).instruction.type = IType.BRANCH)
    (hne : X ≠ nId) :
    ((s.heap X).successor 0 = none →
      ∃ s', aux_cfg_insert s X nId = some (s', some nId) ∧
        (s'.heap X).successor 0 = some nId ∧
        (s'.heap X).nb_out = (s.heap X).nb_out + 1) ∧
    ((s.heap X).successor 0 ≠ none → (s.heap X).nb_out = 1 →
      ∃ s', aux_cfg_insert s X nId = some (s', some nId) ∧
        (s'.heap X).successor 1 = some nId ∧
        (s'.heap X).successor 0 = (s.heap X).successor 0 ∧
        (s'.heap X).nb_out = 2) ∧
    ((s.heap X).successor 0 ≠ none → 2 ≤ (s.heap X).nb_out →
      aux_cfg_insert s X nId = some (s, none)) := by
  have hnret : (s.heap X).instruction.type ≠ IType.RET := by
    rw [htype]
    intro h
    cases h
  refine ⟨?_, ?_, ?_⟩
  · intro hsucc0
    refine ⟨linkFrom s X nId 0, ?_, ?_, ?_⟩
    · unfold aux_cfg_insert
      simp [hnret, hsucc0]
    · simp [linkFrom, updHeap, hne, Ne.symm hne]
    · simp [linkFrom, updHeap, hne, Ne.symm hne]
  · intro hsucc0 hout
    have hcond : ¬ ((s.heap X).instruction.type ≠ IType.RET ∧
        (s.heap X).successor 0 = none) := by
      intro h
      exact hsucc0 h.2
    refine ⟨linkFrom s X nId 1, ?_, ?_, ?_, ?_⟩
    · unfold aux_cfg_insert
      rw [if_neg hcond, htype]
      rw [if_neg (by omega : ¬ 2 ≤ (s.heap X).nb_out)]
    · simp [linkFrom, updHeap, hne, Ne.symm hne]
    · simp [linkFrom, updHeap, hne, Ne.symm hne]
    · simp [linkFrom, updHeap, hne, Ne.symm hne, hout]
  · intro hsucc0 hout
    have hcond : ¬ ((s.heap X).instruction.type ≠ IType.RET ∧
        (s.heap X).successor 0 = none) := by
      intro h
      exact hsucc0 h.2
    unfold aux_cfg_insert
    rw [if_neg hcond, htype]
    rw [if_pos hout]

/-- A BRANCH node with two successors already in place, the setting of the
third part of the C9 theorem. -/
def sBranchFull : St :=
  { heap := fun k =>
      if k = 0 then
        ⟨⟨10, IType.BRANCH, 2, [0x74, 0x10]⟩, 0, 2, 0,
          fun j => if j = 0 then some 1 else if j = 1 then some 2 else none⟩
      else if k = 1 then ⟨⟨30, IType.BASIC, 1, [0x90]⟩, 1, 0, 0, fun _ => none⟩
      else if k = 2 then ⟨⟨40, IType.BASIC, 1, [0x91]⟩, 1, 0, 0, fun _ => none⟩
      else ⟨⟨0, IType.BASIC, 0, []⟩, 0, 0, 0, fun _ => none⟩,
    nextId := 4, depth := 0, nb_name := 0, stack := fun _ => none,
    function_entry := fun _ => none, htsize := 1,
    buckets := fun j => if j = 0 then [0, 1, 2] else [] }

/-- Witness for C9 at a concrete BRANCH node that already has its two
edges: the third insertion attempt is refused and the state unchanged. -/
theorem branch_successor_cap_witness :
    (sBranchFull.heap 0).instruction.type = IType.BRANCH ∧ (0 : Nat) ≠ 3 ∧
    (sBranchFull.heap 0).successor 0 ≠ none ∧ 2 ≤ (sBranchFull.heap 0).nb_out ∧
    aux_cfg_insert sBranchFull 0 3 = some (sBranchFull, none) :=
  ⟨by decide, by decide, by decide, by decide,
    (branch_successor_cap sBranchFull 0 3 (by decide) (by decide)).2.2
      (by decide) (by decide)⟩

end Trace

namespace Trace

/-! ### RET handling of the insertion driver (C2) -/

/-- C2 (amended) — when the current node has kind RET (with a non-empty
call stack topped by caller `cid`, and the linkage actually performed): if
the new node's address is exactly `caller.address + caller.size`, one frame
is popped (depth decremented, slot cleared), the edge is appended from the
*caller* — not from the current node — and the *caller's* `function_id` is
propagated to the new node; otherwise the popped frame is pushed back (the
call stack is left unchanged, not popped), the edge is appended from the
current node and the current node's `function_id` is propagated. -/
theorem ret_linkage_amended (s : St) (cfgId newId cid : Nat)
    (htype : (s.heap cfgId).instruction.type = IType.RET)
    (hdepth : 1 ≤ s.depth)
    (hstack : s.stack (s.depth - 1) = some cid)
    (h1 : cfgId ≠ newId) (h2 : cid ≠ newId) (h3 : cid ≠ cfgId) :
    ∃ s', aux_cfg_insert s cfgId newId = some (s', some newId) ∧
      (if (s.heap newId).instruction.address =
          (s.heap cid).instruction.address + (s.heap cid).instruction.size then
        s'.depth = s.depth - 1 ∧
        s'.stack (s.depth - 1) = none ∧
        (s'.heap cid).successor ((s.heap cid).nb_out) = some newId ∧
        (s'.heap cid).nb_out = (s.heap cid).nb_out + 1 ∧
        (s'.heap cfgId).nb_out = (s.heap cfgId).nb_out ∧
        (s'.heap cfgId).successor = (s.heap cfgId).successor ∧
        (s'.heap newId).name = (s.heap cid).name
      else
        s'.depth = s.depth ∧
        s'.stack = s.stack ∧
        (s'.heap cfgId).successor ((s.heap cfgId).nb_out) = some newId ∧
        (s'.heap cfgId).nb_out = (s.heap cfgId).nb_out + 1 ∧
        (s'.heap newId).name = (s.heap cfgId).name) := by
  have hcond : ¬ ((s.heap cfgId).instruction.type ≠ IType.RET ∧
      (s.heap cfgId).successor 0 = none) := by
    intro h
    exact h.1 htype
  by_cases haddr : (s.heap newId).instruction.address =
      (s.heap cid).instruction.address + (s.heap cid).instruction.size
  · refine ⟨linkFrom
      { s with
          stack := fun j => if j = s.depth - 1 then none else s.stack j,
          depth := s.depth - 1 }
      cid newId (s.heap cid).nb_out, ?_, ?_⟩
    · unfold aux_cfg_insert
      rw [if_neg hcond, htype]
      rw [if_neg (by omega : ¬ s.depth = 0)]
      simp only [hstack]
      rw [if_pos haddr]
    · rw [if_pos haddr]
      refine ⟨?_, ?_, ?_, ?_, ?_, ?_, ?_⟩
      · simp [linkFrom, updHeap]
      · simp [linkFrom, updHeap]
      · simp [linkFrom, updHeap, h2, Ne.symm h2]
      · simp [linkFrom, updHeap, h2, Ne.symm h2]
      · simp [linkFrom, updHeap, h3, Ne.symm h3, h1]
      · simp [linkFrom, updHeap, h3, Ne.symm h3, h1]
      · simp [linkFrom, updHeap, h2, Ne.symm h2, h3, Ne.symm h3]
  · refine ⟨linkFrom s cfgId newId (s.heap cfgId).nb_out, ?_, ?_⟩
    · unfold aux_cfg_insert
      rw [if_neg hcond, htype]
      rw [if_neg (by omega : ¬ s.depth = 0)]
      simp only [hstack]
      rw [if_neg haddr]
    · rw [if_neg haddr]
      refine ⟨?_, ?_, ?_, ?_, ?_⟩
      · simp [linkFrom, updHeap]
      · simp [linkFrom, updHeap]
      · simp [linkFrom, updHeap, h1, Ne.symm h1]
      · simp [linkFrom, updHeap, h1, Ne.symm h1]
      · simp [linkFrom, updHeap, h1, Ne.symm h1]

/-- A run-reachable state for the C2 counterexample's no-match half:
`CALL(10,2)` was executed (caller, node 0, on the stack), the current node
is `RET(50,1)` (node 1), and the next instruction (node 2) sits at address
999, not at `10 + 2`. -/
def sRetNoMatch : St :=
  { heap := fun k =>
      if k = 0 then ⟨⟨10, IType.CALL, 2, [0xE8, 0x00]⟩, 0, 1, 0,
        fun j => if j = 0 then some 1 else none⟩
      else if k = 1 then ⟨⟨50, IType.RET, 1, [0xC3]⟩, 1, 0, 0, fun _ => none⟩
      else if k = 2 then ⟨⟨999, IType.BASIC, 1, [0x90]⟩, 0, 0, 0, fun _ => none⟩
      else ⟨⟨0, IType.BASIC, 0, []⟩, 0, 0, 0, fun _ => none⟩,
    nextId := 3, depth := 1, nb_name := 0,
    stack := fun j => if j = 0 then some 0 else none,
    function_entry := fun _ => none, htsize := 1,
    buckets := fun j => if j = 0 then [0, 1, 2] else [] }

/-- State for the C2 counterexample's function-id half: the caller (node 0)
carries `function_id` 5, the current RET node (node 1) carries 7, and the
new node (node 2) sits exactly past the caller, at `10 + 2`. -/
def sRetMatch : St :=
  { heap := fun k =>
      if k = 0 then ⟨⟨10, IType.CALL, 2, [0xE8, 0x00]⟩, 0, 1, 5,
        fun j => if j = 0 then some 1 else none⟩
      else if k = 1 then ⟨⟨50, IType.RET, 1, [0xC3]⟩, 1, 0, 7, fun _ => none⟩
      else if k = 2 then ⟨⟨12, IType.BASIC, 1, [0x90]⟩, 0, 0, 0, fun _ => none⟩
      else ⟨⟨0, IType.BASIC, 0, []⟩, 0, 0, 0, fun _ => none⟩,
    nextId := 3, depth := 1, nb_name := 0,
    stack := fun j => if j = 0 then some 0 else none,
    function_entry := fun _ => none, htsize := 1,
    buckets := fun j => if j = 0 then [0, 1, 2] else [] }

/-- Counterexample to C2 as stated, evaluated on the code: (i) when the
return address does *not* follow the caller, the call stack ends up
*unchanged* — depth still 1, caller still on the stack — although the claim
says it remains popped by one frame; (ii) in the return-to-follower case the
new node receives the *caller's* `function_id` 5, not `cur_node`'s 7 as the
claim states for both cases. -/
theorem ret_linkage_counterexample :
    ((aux_cfg_insert sRetNoMatch 1 2).map (fun p => (p.1.depth, p.1.stack 0)) =
      some (1, some 0)) ∧
    ((aux_cfg_insert sRetNoMatch 1 2).map (fun p => p.1.depth) ≠
      some (sRetNoMatch.depth - 1)) ∧
    ((aux_cfg_insert sRetMatch 1 2).map (fun p => (p.1.heap 2).name) = some 5) ∧
    ((aux_cfg_insert sRetMatch 1 2).map (fun p => (p.1.heap 2).name) ≠
      some ((sRetMatch.heap 1).name)) := by
  decide

/-- Witness for the amended C2 theorem at the concrete return-to-follower
state: the edge is appended from the caller and the caller's function id is
propagated. -/
theorem ret_linkage_amended_witness :
    (sRetMatch.heap 1).instruction.type = IType.RET ∧
    1 ≤ sRetMatch.depth ∧ sRetMatch.stack (sRetMatch.depth - 1) = some 0 ∧
    (∃ s', aux_cfg_insert sRetMatch 1 2 = some (s', some 2) ∧
      (if (sRetMatch.heap 2).instruction.address =
          (sRetMatch.heap 0).instruction.address +
            (sRetMatch.heap 0).instruction.size then
        s'.depth = sRetMatch.depth - 1 ∧
        s'.stack (sRetMatch.depth - 1) = none ∧
        (s'.heap 0).successor ((sRetMatch.heap 0).nb_out) = some 2 ∧
        (s'.heap 0).nb_out = (sRetMatch.heap 0).nb_out + 1 ∧
        (s'.heap 1).nb_out = (sRetMatch.heap 1).nb_out ∧
        (s'.heap 1).successor = (sRetMatch.heap 1).successor ∧
        (s'.heap 2).name = (sRetMatch.heap 0).name
      else
        s'.depth = sRetMatch.depth ∧
        s'.stack = sRetMatch.stack ∧
        (s'.heap 1).successor ((sRetMatch.heap 1).nb_out) = some 2 ∧
        (s'.heap 1).nb_out = (sRetMatch.heap 1).nb_out + 1 ∧
        (s'.heap 2).name = (sRetMatch.heap 1).name)) :=
  ⟨by decide, by decide, by decide,
    ret_linkage_amended sRetMatch 1 2 0 (by decide) (by decide) (by decide)
      (by decide) (by decide) (by decide)⟩

/-! ### Function-id allocation at CALL sites (C3) -/

/-- The inert node unallocated heap identifiers hold. -/
def defaultNode : Node := ⟨⟨0, IType.BASIC, 0, []⟩, 0, 0, 0, fun _ => none⟩

/-- A freshly started CFG whose only node (id 0) is a CALL instruction at
address 100 of size 2; the store holds just that node. -/
def sCallSite : St :=
  { heap := fun k =>
      if k = 0 then ⟨⟨100, IType.CALL, 2, [0xFF, 0xD0]⟩, 0, 0, 0, fun _ => none⟩
      else defaultNode,
    nextId := 1, depth := 0, nb_name := 0, stack := fun _ => none,
    function_entry := fun _ => none, htsize := 1,
    buckets := fun j => if j = 0 then [0] else [] }

/-- The fresh instruction the CALL transfers to (address 200, not in the
store). -/
def insCallTarget : Instr := ⟨200, IType.BASIC, 1, [0x90]⟩

/-- C3 — the code, evaluated at the failing input: processing a fresh CALL
target does allocate function id 1 (monotonically from `nb_name = 0`),
records the new node (id 1) as `function_entry[1]` and pushes the caller,
but the new node's own `function_id` stays 0 — the first branch of
`aux_cfg_insert` overwrites it with `cur_node`'s id — although the claim
(and specification scenario 5) require the node to carry the freshly
allocated id 1.  Re-processing the same, now pre-existing, target allocates
no further id. -/
theorem call_function_id_not_carried :
    ((cfg_insert sCallSite 0 insCallTarget).map (fun p =>
      (p.1.nb_name, p.1.function_entry 1, (p.1.heap 1).name,
        p.1.depth, p.1.stack 0, p.2)) =
      some (1, some 1, 0, 1, some 0, some 1)) ∧
    ((cfg_insert sCallSite 0 insCallTarget).map (fun p => (p.1.heap 1).name) ≠
      some 1) ∧
    (((cfg_insert sCallSite 0 insCallTarget).bind (fun p =>
      cfg_insert p.1 0 insCallTarget)).map (fun p => (p.1.nb_name, p.2)) =
      some (1, some 1)) := by
  decide

end Trace
